import Mathlib

/-!
# verto: node / chain / endpoint dispatch and the compression plugin

A shallow embedding of `mux/node.go` and `plugins/compression.go`.

Go code with side effects is embedded as a function returning a `Run`: the
list of observable events it performed, in order, and whether it ended in a
panic.  Go function values (`http.Handler`, `PluginFunc`) are Lean functions.
Go maps keyed by method are functions `String → Option _`, written back
explicitly where Go shares the map by reference.
-/

namespace Verto

/-! ## Outcome of running Go code -/

/-- Outcome of a call: the events performed, oldest first, and whether the
call ended in a panic that is still propagating. -/
structure Run (ε : Type) where
  events : List ε
  panicked : Bool
deriving DecidableEq

/-- A call that does nothing and returns. -/
def Run.skip {ε : Type} : Run ε := ⟨[], false⟩

/-- A call that panics at once, such as a method call on a nil interface. -/
def Run.panic {ε : Type} : Run ε := ⟨[], true⟩

/-- A call that performs the given events and returns. -/
def Run.ofEvents {ε : Type} (es : List ε) : Run ε := ⟨es, false⟩

/-- Sequential composition `a; b`: when `a` panics, `b` is never started. -/
def Run.seq {ε : Type} (a b : Run ε) : Run ε :=
  if a.panicked then a else ⟨a.events ++ b.events, b.panicked⟩

/-- Go `defer cleanup(); body`: the cleanup runs after the body on every exit
path, also when the body panics. -/
def Run.deferred {ε : Type} (body cleanup : Run ε) : Run ε :=
  ⟨body.events ++ cleanup.events, body.panicked || cleanup.panicked⟩

/-! ## net/http values -/

/-- Kind of pooled compressor (`ctGzip`, `ctFlate`). -/
inductive CompressionType where
  | ctGzip
  | ctFlate
deriving DecidableEq

/-- Implementations of `http.ResponseWriter` that occur: a writer handed out by
the server, and the `compressionWriter` of the compression plugin, which embeds
a pooled compressing `io.Writer` and the writer it decorates. -/
inductive ResponseWriter where
  | conn (id : Nat)
  | compressionWriter (Writer : CompressionType) (inner : ResponseWriter)
deriving DecidableEq

/-- The fields of `http.Request` that the code reads: the method and the header
entries, in order, with canonical keys. -/
structure Request where
  Method : String
  Header : List (String × String)
deriving DecidableEq

/-- `http.Header.Get`: the first value stored under the key, `""` when absent. -/
def Request.HeaderGet (r : Request) (key : String) : String :=
  match r.Header.find? (fun kv => kv.1 = key) with
  | some kv => kv.2
  | none => ""

/-- `http.Handler`: `ServeHTTP(w, r)`. -/
abbrev Handler (ε : Type) := ResponseWriter → Request → Run ε

/-- A Go map keyed by method name; `none` is a missing key. -/
abbrev MethodMap (α : Type) := String → Option α

/-- Map store `m[key] = v`. -/
def MethodMap.set {α : Type} (m : MethodMap α) (key : String) (v : α) : MethodMap α :=
  fun k => if k = key then some v else m k

/-! ## mux: plugins and the chain -/

/-- Type `PluginFunc` of package mux:
`func(w http.ResponseWriter, r *http.Request, next http.HandlerFunc)`. -/
abbrev PluginFunc (ε : Type) := ResponseWriter → Request → Handler ε → Run ε

/-- Modelled from the spec: the `PluginHandler` values stored in a chain (the
interface is declared outside `node.go`).  `func f` is a caller-supplied plugin.
`useClosure method` is the function literal that `nodeImpl.Use` appends; it is
kept as data because it captures the node, whose handler map is shared by
reference and read when the step runs, not when it is built. -/
inductive PluginHandler (ε : Type) where
  | func (f : PluginFunc ε)
  | useClosure (method : String)

/-- Method `Handle` of a stored step, run against the node's handler map.
The closure of `nodeImpl.Use` (node.go lines 96-98) is
`node.handlers[node.method].ServeHTTP(w, r)`: it ignores `next`, and a missing
key yields a nil handler whose method call panics. -/
def PluginHandler.Handle {ε : Type} (handlers : MethodMap (Handler ε)) :
    PluginHandler ε → PluginFunc ε
  | .func f, w, r, next => f w r next
  | .useClosure method, w, r, _ =>
    match handlers method with
    | some h => h w r
    | none => Run.panic

/-- Modelled from the spec: the chain type `plugins` (§3, §4.1), an ordered
sequence of plugins; its declaration is outside `node.go`. -/
structure plugins (ε : Type) where
  items : List (PluginHandler ε)

/-- Modelled from the spec: `newPlugins()`, the empty chain. -/
def newPlugins {ε : Type} : plugins ε := ⟨[]⟩

/-- Modelled from the spec: the length query of a chain (§4.1). -/
def plugins.length {ε : Type} (p : plugins ε) : Nat := p.items.length

/-- Modelled from the spec: `use`, append at the tail (§4.1 `append`). -/
def plugins.use {ε : Type} (p : plugins ε) (handler : PluginHandler ε) : plugins ε :=
  ⟨p.items ++ [handler]⟩

/-- Modelled from the spec: `popTail`, which removes the last element and is a
no-op on the empty chain (§4.1 `removeTail`). -/
def plugins.popTail {ε : Type} (p : plugins ε) : plugins ε := ⟨p.items.dropLast⟩

/-- Modelled from the spec: the cursor engine of §4.1 on the elements from the
cursor on.  Running element `i` invokes it with a continuation that runs
element `i+1`, or does nothing past the end. -/
def runFrom {ε : Type} (handlers : MethodMap (Handler ε)) :
    List (PluginHandler ε) → Handler ε
  | [], _, _ => Run.skip
  | p :: rest, w, r => p.Handle handlers w r (runFrom handlers rest)

/-- Modelled from the spec: `run`, which begins execution at index 0 (§4.1).
The handler map is the one of the node that owns the chain. -/
def plugins.run {ε : Type} (handlers : MethodMap (Handler ε)) (p : plugins ε) : Handler ε :=
  runFrom handlers p.items

/-! ## mux/node.go -/

/-- Struct `muxNode`.  `NotImplemented` is the field `mux.NotImplemented` of
the muxer the node points to. -/
structure muxNode (ε : Type) where
  NotImplemented : Handler ε
  handlers : MethodMap (Handler ε)
  chains : MethodMap (plugins ε)
  path : String

/-- `newMuxNode(mux, path)`: both maps empty. -/
def newMuxNode {ε : Type} (NotImplemented : Handler ε) (path : String) : muxNode ε :=
  { NotImplemented := NotImplemented
    handlers := fun _ => none
    chains := fun _ => none
    path := path }

/-- `muxNode.ServeHTTP` (node.go lines 48-61). -/
def muxNode.ServeHTTP {ε : Type} (node : muxNode ε) : Handler ε := fun w r =>
  match node.handlers r.Method with
  | none => node.NotImplemented w r
  | some handler =>
    match node.chains r.Method with
    | none => handler w r
    | some chain =>
      if chain.length = 0 then handler w r
      else chain.run node.handlers w r

/-- Struct `nodeImpl`: a method and the two maps of the node. -/
structure nodeImpl (ε : Type) where
  method : String
  handlers : MethodMap (Handler ε)
  chains : MethodMap (plugins ε)

/-- `newNodeImpl(method, node)`. -/
def newNodeImpl {ε : Type} (method : String) (node : muxNode ε) : nodeImpl ε :=
  { method := method
    handlers := node.handlers
    chains := node.chains }

/-- The chain `nodeImpl.Use` works on (node.go lines 82-86): the stored one, or
a new empty chain when the key is missing. -/
def nodeImpl.chainFor {ε : Type} (node : nodeImpl ε) : plugins ε :=
  match node.chains node.method with
  | some chain => chain
  | none => newPlugins

/-- `nodeImpl.Use` (node.go lines 81-101).  The result carries the chain map
after the call. -/
def nodeImpl.Use {ε : Type} (node : nodeImpl ε) (handler : PluginHandler ε) : nodeImpl ε :=
  let chain := node.chainFor
  let chain := if chain.length > 0 then chain.popTail else chain
  let chain := chain.use handler
  let chain := chain.use (PluginHandler.useClosure node.method)
  { node with chains := node.chains.set node.method chain }

/-- The function literal of `nodeImpl.UseHandler` (node.go lines 106-110):
`handler.ServeHTTP(w, r); next(w, r)`. -/
def useHandlerFunc {ε : Type} (handler : Handler ε) : PluginFunc ε :=
  fun w r next => (handler w r).seq (next w r)

/-- `nodeImpl.UseHandler` (node.go lines 105-114). -/
def nodeImpl.UseHandler {ε : Type} (node : nodeImpl ε) (handler : Handler ε) : nodeImpl ε :=
  node.Use (PluginHandler.func (useHandlerFunc handler))

/-- A node after `newNodeImpl(method, node).Use(handler)`: the `nodeImpl`
aliases the node's maps, so the node sees the updated chain map. -/
def muxNode.Use {ε : Type} (node : muxNode ε) (method : String)
    (handler : PluginHandler ε) : muxNode ε :=
  { node with chains := ((newNodeImpl method node).Use handler).chains }

/-- A node after `newNodeImpl(method, node).UseHandler(handler)`. -/
def muxNode.UseHandler {ε : Type} (node : muxNode ε) (method : String)
    (handler : Handler ε) : muxNode ε :=
  { node with chains := ((newNodeImpl method node).UseHandler handler).chains }

/-- Successive `Use` calls for one method, in list order. -/
def muxNode.UseAll {ε : Type} (node : muxNode ε) (method : String)
    (hs : List (PluginHandler ε)) : muxNode ε :=
  hs.foldl (fun n h => n.Use method h) node

/-! ## mux: endpoint -/

/-- Modelled from the spec: struct `endpoint` (§3, §4.2), one handler and one
chain; its declaration is outside `src/`.  The chain pointer is nil until the
first `Use` (endpoint_test.go starts from a zero-valued endpoint). -/
structure endpoint (ε : Type) where
  handler : Handler ε
  chain : Option (plugins ε)

/-- Modelled from the spec: `endpoint.Use` (§4.2 with the maintenance of §3):
remove the existing synthetic terminal step if any, append the new plugin,
append a fresh synthetic terminal step invoking the handler. -/
def endpoint.Use {ε : Type} (ep : endpoint ε) (handler : PluginHandler ε) : endpoint ε :=
  let chain := match ep.chain with
    | some chain => chain
    | none => newPlugins
  let chain := if chain.length > 0 then chain.popTail else chain
  let chain := chain.use handler
  let chain := chain.use (PluginHandler.func (fun w r _ => ep.handler w r))
  { ep with chain := some chain }

/-- Modelled from the spec: `endpoint.ServeHTTP` (§4.2 `dispatch`): if the
chain length is 0, invoke the handler directly; otherwise invoke `chain.run`.
A chain that was never created counts as length 0. -/
def endpoint.ServeHTTP {ε : Type} (ep : endpoint ε) : Handler ε := fun w r =>
  match ep.chain with
  | none => ep.handler w r
  | some chain =>
    if chain.length = 0 then ep.handler w r
    else chain.run (fun _ => none) w r

/-- Successive `endpoint.Use` calls, in list order. -/
def endpoint.UseAll {ε : Type} (ep : endpoint ε) (hs : List (PluginHandler ε)) : endpoint ε :=
  hs.foldl (fun e h => e.Use h) ep

/-! ## Plugins in normal form, used to state the dispatch theorems -/

/-- A plugin that calls its continuation exactly once: it performs `before`,
calls `next` on the pair given by `pass`, and performs `after` once `next` has
returned. -/
structure Forwarder (ε : Type) where
  before : ResponseWriter → Request → List ε
  pass : ResponseWriter → Request → ResponseWriter × Request
  after : ResponseWriter → Request → List ε

/-- The plugin function of a forwarder. -/
def Forwarder.func {ε : Type} (f : Forwarder ε) : PluginFunc ε := fun w r next =>
  (Run.ofEvents (f.before w r)).seq
    ((next (f.pass w r).1 (f.pass w r).2).seq (Run.ofEvents (f.after w r)))

/-- The forwarder as a value that can be handed to `Use`. -/
def Forwarder.plugin {ε : Type} (f : Forwarder ε) : PluginHandler ε :=
  PluginHandler.func f.func

/-- A plugin that never calls its continuation: it only performs `body`. -/
def stopper {ε : Type} (body : Handler ε) : PluginHandler ε :=
  PluginHandler.func (fun w r _ => body w r)

/-- Events performed on the way in by forwarders entered in list order. -/
def befores {ε : Type} : List (Forwarder ε) → ResponseWriter → Request → List ε
  | [], _, _ => []
  | f :: fs, w, r => f.before w r ++ befores fs (f.pass w r).1 (f.pass w r).2

/-- The writer and request that reach the step behind the forwarders. -/
def passAll {ε : Type} : List (Forwarder ε) → ResponseWriter → Request → ResponseWriter × Request
  | [], w, r => (w, r)
  | f :: fs, w, r => passAll fs (f.pass w r).1 (f.pass w r).2

/-- Events performed on the way out, innermost forwarder first. -/
def afters {ε : Type} : List (Forwarder ε) → ResponseWriter → Request → List ε
  | [], _, _ => []
  | f :: fs, w, r => afters fs (f.pass w r).1 (f.pass w r).2 ++ f.after w r

/-- Whether a stored step is the synthetic terminal step of `nodeImpl.Use`. -/
def PluginHandler.isUseClosure {ε : Type} : PluginHandler ε → Bool
  | .func _ => false
  | .useClosure _ => true

/-! ## Attachment sequences -/

/-- One attachment call on a node whose plugin calls its continuation exactly
once: `Use` of a forwarder, or `UseHandler` of a handler that performs the
given events and returns. -/
inductive Attachment (ε : Type) where
  | use (f : Forwarder ε)
  | useHandler (h : ResponseWriter → Request → List ε)

/-- The node after the attachment call for `method`. -/
def Attachment.apply {ε : Type} (node : muxNode ε) (method : String) :
    Attachment ε → muxNode ε
  | .use f => node.Use method f.plugin
  | .useHandler h => node.UseHandler method (fun w r => Run.ofEvents (h w r))

/-- What the attached step does, as a forwarder: a spliced handler performs its
events on the way in, passes `(w, r)` on unchanged and does nothing on the way
out. -/
def Attachment.forwarder {ε : Type} : Attachment ε → Forwarder ε
  | .use f => f
  | .useHandler h => { before := h, pass := fun w r => (w, r), after := fun _ _ => [] }

/-- Successive attachment calls for one method, in list order. -/
def muxNode.attachAll {ε : Type} (node : muxNode ε) (method : String)
    (atts : List (Attachment ε)) : muxNode ε :=
  atts.foldl (fun n a => a.apply n method) node

/-! ## plugins/compression.go -/

/-- Go `unicode.IsSpace`: the white space that `strings.TrimSpace` removes. -/
def isSpace (c : Char) : Bool :=
  c.toNat = 0x09 || c.toNat = 0x0A || c.toNat = 0x0B || c.toNat = 0x0C || c.toNat = 0x0D ||
  c.toNat = 0x20 || c.toNat = 0x85 || c.toNat = 0xA0 || c.toNat = 0x1680 ||
  (0x2000 ≤ c.toNat && c.toNat ≤ 0x200A) || c.toNat = 0x2028 || c.toNat = 0x2029 ||
  c.toNat = 0x202F || c.toNat = 0x205F || c.toNat = 0x3000

/-- Go `strings.TrimSpace`: drop leading and trailing white space. -/
def TrimSpace (s : List Char) : List Char :=
  ((s.dropWhile isSpace).reverse.dropWhile isSpace).reverse

/-- Go `strings.Split(s, sep)` for a one-character separator: the pieces
between separators, one more than there are separators (`[""]` for `""`). -/
def Split : List Char → Char → List (List Char)
  | [], _ => [[]]
  | c :: cs, sep =>
    if c = sep then [] :: Split cs sep
    else
      match Split cs sep with
      | [] => [[c]]
      | t :: ts => (c :: t) :: ts

/-- Events of the compression plugin and of whatever runs behind it. -/
inductive Effect (ε : Type) where
  | headerAdd (w : ResponseWriter) (key value : String)
  | poolGet (w : ResponseWriter) (ct : CompressionType)
  | dispose (ct : CompressionType)
  | downstream (e : ε)
deriving DecidableEq

/-- Type `Context` of package verto: the request and the response writer. -/
structure Context where
  Request : Request
  Response : ResponseWriter

/-- `w.Header().Add(key, value)`. -/
def headerAdd {ε : Type} (w : ResponseWriter) (key value : String) : Run (Effect ε) :=
  Run.ofEvents [Effect.headerAdd w key value]

/-- Modelled from the spec: `pool.get(w, ct)` (§5), which takes a compressing
writer of kind `ct` for `w` out of the pool; the pool is declared outside
`compression.go`.  The handle is identified by `ct`. -/
def poolGet {ε : Type} (w : ResponseWriter) (ct : CompressionType) : Run (Effect ε) :=
  Run.ofEvents [Effect.poolGet w ct]

/-- Modelled from the spec: `ref.dispose()` (§5), which releases the handle. -/
def dispose {ε : Type} (ct : CompressionType) : Run (Effect ε) :=
  Run.ofEvents [Effect.dispose ct]

/-- The loop `for _, v := range enc` of `compressionFunc` (compression.go lines
43-73), with the final `next(w, r)` once the range is exhausted. -/
def compressionLoop {ε : Type} (w : ResponseWriter) (r : Request) (next : Handler (Effect ε)) :
    List (List Char) → Run (Effect ε)
  | [] => next w r
  | v :: enc =>
    if TrimSpace v = "gzip".toList then
      (headerAdd w "Content-Encoding" "gzip").seq
        ((poolGet w CompressionType.ctGzip).seq
          (Run.deferred (next (ResponseWriter.compressionWriter CompressionType.ctGzip w) r)
            (dispose CompressionType.ctGzip)))
    else if TrimSpace v = "deflate".toList then
      (headerAdd w "Content-Encoding" "deflate").seq
        ((poolGet w CompressionType.ctFlate).seq
          (Run.deferred (next (ResponseWriter.compressionWriter CompressionType.ctFlate w) r)
            (dispose CompressionType.ctFlate)))
    else compressionLoop w r next enc

/-- `compressionFunc` (compression.go lines 36-74). -/
def compressionFunc {ε : Type} (c : Context) (next : Handler (Effect ε)) : Run (Effect ε) :=
  (headerAdd c.Response "Vary" "Accept-Encoding").seq
    (compressionLoop c.Response c.Request next
      (Split (c.Request.HeaderGet "Accept-Encoding").toList ','))

/-- `CompressionPlugin()`: returns `compressionFunc` as a plugin. -/
def CompressionPlugin {ε : Type} : Context → Handler (Effect ε) → Run (Effect ε) :=
  compressionFunc

/-- The selection as the specification words it: split the header value on
commas, trim each token, take the first token that is exactly `gzip` or exactly
`deflate`. -/
def selectedToken (value : String) : Option (List Char) :=
  ((Split value.toList ',').map TrimSpace).find?
    (fun v => decide (v = "gzip".toList) || decide (v = "deflate".toList))

/-- What the specification says the plugin does for a selected token. -/
def compressionSpec {ε : Type} (c : Context) (next : Handler (Effect ε)) : Run (Effect ε) :=
  match selectedToken (c.Request.HeaderGet "Accept-Encoding") with
  | some v =>
    if v = "gzip".toList then
      (Run.ofEvents [Effect.headerAdd c.Response "Vary" "Accept-Encoding",
          Effect.headerAdd c.Response "Content-Encoding" "gzip",
          Effect.poolGet c.Response CompressionType.ctGzip]).seq
        (Run.deferred
          (next (ResponseWriter.compressionWriter CompressionType.ctGzip c.Response) c.Request)
          (Run.ofEvents [Effect.dispose CompressionType.ctGzip]))
    else
      (Run.ofEvents [Effect.headerAdd c.Response "Vary" "Accept-Encoding",
          Effect.headerAdd c.Response "Content-Encoding" "deflate",
          Effect.poolGet c.Response CompressionType.ctFlate]).seq
        (Run.deferred
          (next (ResponseWriter.compressionWriter CompressionType.ctFlate c.Response) c.Request)
          (Run.ofEvents [Effect.dispose CompressionType.ctFlate]))
  | none =>
    (Run.ofEvents [Effect.headerAdd c.Response "Vary" "Accept-Encoding"]).seq
      (next c.Response c.Request)

/-! ## Concrete inputs -/

/-- A forwarder that records `tag` and calls `next(w, r)`. -/
def mark (tag : String) : Forwarder String :=
  { before := fun _ _ => [tag]
    pass := fun w r => (w, r)
    after := fun _ _ => [] }

/-- A handler that records `tag`. -/
def say (tag : String) : Handler String := fun _ _ => Run.ofEvents [tag]

/-- A node for one path with a GET handler and no chain yet. -/
def exampleNode : muxNode String :=
  { NotImplemented := say "501"
    handlers := MethodMap.set (fun _ => none) "GET" (say "H")
    chains := fun _ => none
    path := "/x" }

/-- A GET request without headers. -/
def getRequest : Request := ⟨"GET", []⟩

/-- A POST request without headers. -/
def postRequest : Request := ⟨"POST", []⟩

/-- An endpoint with handler `H` whose chain was never created. -/
def exampleEndpoint : endpoint String :=
  { handler := say "H", chain := none }

/-- A request that accepts gzip. -/
def gzipContext : Context :=
  { Request := ⟨"GET", [("Accept-Encoding", "gzip")]⟩
    Response := ResponseWriter.conn 0 }

/-- A downstream handler that records the writer it was given. -/
def recordWriter : Handler (Effect ResponseWriter) :=
  fun w _ => Run.ofEvents [Effect.downstream w]

/-! ## Lemmas: sequencing -/

theorem Run.skip_seq {ε : Type} (a : Run ε) : Run.skip.seq a = a := by
  cases a; simp [Run.seq, Run.skip]

theorem Run.seq_skip {ε : Type} (a : Run ε) : a.seq Run.skip = a := by
  cases a with
  | mk es p => cases p <;> simp [Run.seq, Run.skip]

theorem Run.seq_assoc {ε : Type} (a b c : Run ε) : (a.seq b).seq c = a.seq (b.seq c) := by
  cases a with
  | mk ea pa =>
    cases b with
    | mk eb pb => cases pa <;> cases pb <;> simp [Run.seq]

theorem Run.ofEvents_nil {ε : Type} : Run.ofEvents ([] : List ε) = Run.skip := rfl

theorem Run.ofEvents_append {ε : Type} (xs ys : List ε) :
    Run.ofEvents (xs ++ ys) = (Run.ofEvents xs).seq (Run.ofEvents ys) := by
  simp [Run.seq, Run.ofEvents]

/-! ## Lemmas: the chain engine on forwarders -/

theorem runFrom_useClosure {ε : Type} (handlers : MethodMap (Handler ε)) (m : String)
    (H : Handler ε) (hH : handlers m = some H) (w : ResponseWriter) (r : Request) :
    runFrom handlers [PluginHandler.useClosure m] w r = H w r := by
  simp [runFrom, PluginHandler.Handle, hH]

theorem runFrom_forwarders {ε : Type} (handlers : MethodMap (Handler ε))
    (fs : List (Forwarder ε)) (rest : List (PluginHandler ε)) :
    ∀ (w : ResponseWriter) (r : Request),
      runFrom handlers (fs.map Forwarder.plugin ++ rest) w r =
        (Run.ofEvents (befores fs w r)).seq
          ((runFrom handlers rest (passAll fs w r).1 (passAll fs w r).2).seq
            (Run.ofEvents (afters fs w r))) := by
  induction fs with
  | nil =>
    intro w r
    simp [befores, passAll, afters, Run.ofEvents_nil, Run.skip_seq, Run.seq_skip]
  | cons f fs ih =>
    intro w r
    have h := ih (f.pass w r).1 (f.pass w r).2
    show (Run.ofEvents (f.before w r)).seq
        ((runFrom handlers (fs.map Forwarder.plugin ++ rest) (f.pass w r).1 (f.pass w r).2).seq
          (Run.ofEvents (f.after w r))) = _
    rw [h]
    simp only [befores, passAll, afters, Run.ofEvents_append, Run.seq_assoc]

/-! ## Lemmas: what `Use` does to a node -/

theorem muxNode.Use_handlers {ε : Type} (node : muxNode ε) (m : String)
    (h : PluginHandler ε) : (node.Use m h).handlers = node.handlers := rfl

theorem muxNode.Use_NotImplemented {ε : Type} (node : muxNode ε) (m : String)
    (h : PluginHandler ε) : (node.Use m h).NotImplemented = node.NotImplemented := rfl

theorem muxNode.Use_chains_other {ε : Type} (node : muxNode ε) (m k : String)
    (h : PluginHandler ε) (hk : k ≠ m) : (node.Use m h).chains k = node.chains k := by
  simp [muxNode.Use, nodeImpl.Use, newNodeImpl, MethodMap.set, hk]

theorem muxNode.Use_chains_none {ε : Type} (node : muxNode ε) (m : String)
    (h : PluginHandler ε) (hc : node.chains m = none) :
    (node.Use m h).chains m = some ⟨[h, PluginHandler.useClosure m]⟩ := by
  simp [muxNode.Use, nodeImpl.Use, nodeImpl.chainFor, newNodeImpl, MethodMap.set, hc,
    newPlugins, plugins.length, plugins.use]

theorem muxNode.Use_chains_some {ε : Type} (node : muxNode ε) (m : String)
    (h t : PluginHandler ε) (ps : List (PluginHandler ε))
    (hc : node.chains m = some ⟨ps ++ [t]⟩) :
    (node.Use m h).chains m = some ⟨ps ++ [h, PluginHandler.useClosure m]⟩ := by
  simp [muxNode.Use, nodeImpl.Use, nodeImpl.chainFor, newNodeImpl, MethodMap.set, hc,
    plugins.length, plugins.use, plugins.popTail]

theorem muxNode.UseAll_handlers {ε : Type} (m : String) (hs : List (PluginHandler ε)) :
    ∀ node : muxNode ε, (node.UseAll m hs).handlers = node.handlers := by
  induction hs with
  | nil => intro node; rfl
  | cons h hs ih =>
    intro node
    simp only [muxNode.UseAll, List.foldl_cons] at ih ⊢
    rw [ih, muxNode.Use_handlers]

theorem muxNode.UseAll_NotImplemented {ε : Type} (m : String) (hs : List (PluginHandler ε)) :
    ∀ node : muxNode ε, (node.UseAll m hs).NotImplemented = node.NotImplemented := by
  induction hs with
  | nil => intro node; rfl
  | cons h hs ih =>
    intro node
    simp only [muxNode.UseAll, List.foldl_cons] at ih ⊢
    rw [ih, muxNode.Use_NotImplemented]

theorem muxNode.UseAll_chains_other {ε : Type} (m k : String) (hk : k ≠ m)
    (hs : List (PluginHandler ε)) :
    ∀ node : muxNode ε, (node.UseAll m hs).chains k = node.chains k := by
  induction hs with
  | nil => intro node; rfl
  | cons h hs ih =>
    intro node
    simp only [muxNode.UseAll, List.foldl_cons] at ih ⊢
    rw [ih, muxNode.Use_chains_other node m k h hk]

theorem muxNode.UseAll_chains_some {ε : Type} (m : String) (hs : List (PluginHandler ε)) :
    ∀ (node : muxNode ε) (ps : List (PluginHandler ε)),
      node.chains m = some ⟨ps ++ [PluginHandler.useClosure m]⟩ →
      (node.UseAll m hs).chains m = some ⟨ps ++ hs ++ [PluginHandler.useClosure m]⟩ := by
  induction hs with
  | nil => intro node ps hc; simpa [muxNode.UseAll] using hc
  | cons h hs ih =>
    intro node ps hc
    have h1 := muxNode.Use_chains_some node m h _ ps hc
    have h2 := ih (node.Use m h) (ps ++ [h]) (by simpa using h1)
    simpa [muxNode.UseAll] using h2

theorem muxNode.UseAll_chains_none {ε : Type} (m : String) (node : muxNode ε)
    (hs : List (PluginHandler ε)) (hc : node.chains m = none) (hne : hs ≠ []) :
    (node.UseAll m hs).chains m = some ⟨hs ++ [PluginHandler.useClosure m]⟩ := by
  cases hs with
  | nil => exact absurd rfl hne
  | cons h hs =>
    have h1 := muxNode.Use_chains_none node m h hc
    have h2 := muxNode.UseAll_chains_some m hs (node.Use m h) [h] (by simpa using h1)
    simpa [muxNode.UseAll] using h2

/-- Dispatch of a method that has a handler and a chain ending in the
synthetic step, behind forwarders and any further steps `mid`. -/
theorem muxNode.ServeHTTP_chain {ε : Type} (node : muxNode ε) (H : Handler ε)
    (items : List (PluginHandler ε)) (w : ResponseWriter) (r : Request)
    (hH : node.handlers r.Method = some H)
    (hc : node.chains r.Method = some ⟨items⟩) (hne : items ≠ []) :
    node.ServeHTTP w r = runFrom node.handlers items w r := by
  have hlen : items.length ≠ 0 := by
    intro h0; exact hne (List.length_eq_zero.mp h0)
  simp [muxNode.ServeHTTP, hH, hc, plugins.length, plugins.run, hlen]

/-! ## Lemmas: attachments -/

theorem Attachment.apply_eq_Use {ε : Type} (node : muxNode ε) (m : String)
    (a : Attachment ε) : a.apply node m = node.Use m a.forwarder.plugin := by
  cases a with
  | use f => rfl
  | useHandler h =>
    have hf : (PluginHandler.func (useHandlerFunc (fun w r => Run.ofEvents (h w r))) :
        PluginHandler ε) =
        (Attachment.useHandler h).forwarder.plugin := by
      simp only [Forwarder.plugin, Attachment.forwarder]
      congr 1
      funext w r next
      simp [useHandlerFunc, Forwarder.func, Run.ofEvents_nil, Run.seq_skip]
    show node.Use m (PluginHandler.func (useHandlerFunc (fun w r => Run.ofEvents (h w r)))) = _
    rw [hf]

theorem muxNode.attachAll_eq_UseAll {ε : Type} (m : String) (atts : List (Attachment ε)) :
    ∀ node : muxNode ε,
      node.attachAll m atts = node.UseAll m ((atts.map Attachment.forwarder).map Forwarder.plugin) := by
  induction atts with
  | nil => intro node; rfl
  | cons a atts ih =>
    intro node
    simp only [muxNode.attachAll, muxNode.UseAll, List.foldl_cons, List.map_cons] at ih ⊢
    rw [ih, Attachment.apply_eq_Use]

/-! ## Lemmas: what `Use` does to an endpoint -/

theorem endpoint.Use_handler {ε : Type} (ep : endpoint ε) (h : PluginHandler ε) :
    (ep.Use h).handler = ep.handler := rfl

theorem endpoint.UseAll_handler {ε : Type} (hs : List (PluginHandler ε)) :
    ∀ ep : endpoint ε, (ep.UseAll hs).handler = ep.handler := by
  induction hs with
  | nil => intro ep; rfl
  | cons h hs ih =>
    intro ep
    simp only [endpoint.UseAll, List.foldl_cons] at ih ⊢
    rw [ih, endpoint.Use_handler]

theorem endpoint.Use_chain_none {ε : Type} (ep : endpoint ε) (h : PluginHandler ε)
    (hc : ep.chain = none) :
    (ep.Use h).chain = some ⟨[h, PluginHandler.func (fun w r _ => ep.handler w r)]⟩ := by
  simp [endpoint.Use, hc, newPlugins, plugins.length, plugins.use]

theorem endpoint.Use_chain_some {ε : Type} (ep : endpoint ε) (h t : PluginHandler ε)
    (ps : List (PluginHandler ε)) (hc : ep.chain = some ⟨ps ++ [t]⟩) :
    (ep.Use h).chain =
      some ⟨ps ++ [h, PluginHandler.func (fun w r _ => ep.handler w r)]⟩ := by
  simp [endpoint.Use, hc, plugins.length, plugins.use, plugins.popTail]

theorem endpoint.UseAll_chain_some {ε : Type} (H : Handler ε) (hs : List (PluginHandler ε)) :
    ∀ (ep : endpoint ε) (ps : List (PluginHandler ε)) (t : PluginHandler ε),
      ep.handler = H → ep.chain = some ⟨ps ++ [t]⟩ → hs ≠ [] →
      (ep.UseAll hs).chain =
        some ⟨ps ++ hs ++ [PluginHandler.func (fun w r _ => H w r)]⟩ := by
  induction hs with
  | nil => intro ep ps t _ _ hne; exact absurd rfl hne
  | cons h hs ih =>
    intro ep ps t hH hc _
    have h1 := endpoint.Use_chain_some ep h t ps hc
    rw [hH] at h1
    cases hs with
    | nil => simpa [endpoint.UseAll] using h1
    | cons h' hs' =>
      have h2 := ih (ep.Use h) (ps ++ [h]) (PluginHandler.func (fun w r _ => H w r))
        (by rw [endpoint.Use_handler]; exact hH) (by simpa using h1) (by simp)
      simpa [endpoint.UseAll] using h2

theorem endpoint.UseAll_chain_none {ε : Type} (ep : endpoint ε)
    (hs : List (PluginHandler ε)) (hc : ep.chain = none) (hne : hs ≠ []) :
    (ep.UseAll hs).chain =
      some ⟨hs ++ [PluginHandler.func (fun w r _ => ep.handler w r)]⟩ := by
  cases hs with
  | nil => exact absurd rfl hne
  | cons h hs =>
    have h1 := endpoint.Use_chain_none ep h hc
    cases hs with
    | nil => simpa [endpoint.UseAll] using h1
    | cons h' hs' =>
      have h2 := endpoint.UseAll_chain_some ep.handler (h' :: hs') (ep.Use h) [h]
        (PluginHandler.func (fun w r _ => ep.handler w r)) rfl (by simpa using h1) (by simp)
      simpa [endpoint.UseAll] using h2

theorem endpoint.ServeHTTP_of_chain {ε : Type} (ep : endpoint ε)
    (items : List (PluginHandler ε)) (w : ResponseWriter) (r : Request)
    (hc : ep.chain = some ⟨items⟩) (hne : items ≠ []) :
    ep.ServeHTTP w r = runFrom (fun _ => none) items w r := by
  have hlen : items.length ≠ 0 := by
    intro h0; exact hne (List.length_eq_zero.mp h0)
  simp [endpoint.ServeHTTP, hc, plugins.length, plugins.run, hlen]

/-- Forwarders in front of the synthetic step of an endpoint, under any handler map. -/
theorem runFrom_forwarders_endpoint {ε : Type} (env : MethodMap (Handler ε)) (H : Handler ε)
    (fs : List (Forwarder ε)) (w : ResponseWriter) (r : Request) :
    runFrom env (fs.map Forwarder.plugin ++ [PluginHandler.func (fun w r _ => H w r)]) w r =
      (Run.ofEvents (befores fs w r)).seq
        ((H (passAll fs w r).1 (passAll fs w r).2).seq (Run.ofEvents (afters fs w r))) := by
  rw [runFrom_forwarders]
  rfl

/-! ## Lemmas: the compression loop -/

theorem compressionLoop_eq_find {ε : Type} (w : ResponseWriter) (r : Request)
    (next : Handler (Effect ε)) (enc : List (List Char)) :
    compressionLoop w r next enc =
      match (enc.map TrimSpace).find?
          (fun v => decide (v = "gzip".toList) || decide (v = "deflate".toList)) with
      | some v =>
        if v = "gzip".toList then
          (headerAdd w "Content-Encoding" "gzip").seq
            ((poolGet w CompressionType.ctGzip).seq
              (Run.deferred (next (ResponseWriter.compressionWriter CompressionType.ctGzip w) r)
                (dispose CompressionType.ctGzip)))
        else
          (headerAdd w "Content-Encoding" "deflate").seq
            ((poolGet w CompressionType.ctFlate).seq
              (Run.deferred (next (ResponseWriter.compressionWriter CompressionType.ctFlate w) r)
                (dispose CompressionType.ctFlate)))
      | none => next w r := by
  induction enc with
  | nil => rfl
  | cons v enc ih =>
    by_cases hg : TrimSpace v = "gzip".toList
    · simp [compressionLoop, List.find?, hg]
    · by_cases hd : TrimSpace v = "deflate".toList
      · simp [compressionLoop, List.find?, hg, hd]
      · simp only [compressionLoop, List.map_cons, List.find?, hg, hd, if_false,
          decide_False, Bool.or_self]
        exact ih

/-! ## Claims -/

/-- C1: on a node with handler `H` for method `m`, after `n ≥ 1` plugins that
each call their continuation exactly once were attached for `m` through
`nodeImpl.Use`, in order, `muxNode.ServeHTTP` on an `m` request performs the
plugins' entry events in attachment order, then runs `H` exactly once, then the
plugins' exit events in reverse order: every plugin and `H` run once, `H` last
on the way in. -/
theorem C1_node_plugins_then_handler {ε : Type} (node : muxNode ε) (m : String)
    (H : Handler ε) (fs : List (Forwarder ε)) (w : ResponseWriter) (r : Request)
    (hH : node.handlers m = some H) (hfresh : node.chains m = none)
    (hn : 1 ≤ fs.length) (hr : r.Method = m) :
    (node.UseAll m (fs.map Forwarder.plugin)).ServeHTTP w r =
      (Run.ofEvents (befores fs w r)).seq
        ((H (passAll fs w r).1 (passAll fs w r).2).seq (Run.ofEvents (afters fs w r))) := by
  subst hr
  have hne : fs.map Forwarder.plugin ≠ [] := by
    cases fs with
    | nil => simp at hn
    | cons f fs => simp
  have hc := muxNode.UseAll_chains_none r.Method node _ hfresh hne
  have hH2 : (node.UseAll r.Method (fs.map Forwarder.plugin)).handlers r.Method = some H := by
    rw [muxNode.UseAll_handlers]; exact hH
  rw [muxNode.ServeHTTP_chain _ H _ w r hH2 hc (by simp), muxNode.UseAll_handlers,
    runFrom_forwarders, runFrom_useClosure node.handlers r.Method H hH]

/-- C1 at a concrete input: two marking plugins and a GET handler. -/
theorem C1_node_plugins_then_handler_witness :
    (exampleNode.UseAll "GET" ([mark "p1", mark "p2"].map Forwarder.plugin)).ServeHTTP
        (ResponseWriter.conn 0) getRequest = ⟨["p1", "p2", "H"], false⟩ :=
  (C1_node_plugins_then_handler exampleNode "GET" (say "H") [mark "p1", mark "p2"]
    (ResponseWriter.conn 0) getRequest rfl rfl (by decide) rfl).trans rfl

/-- C2: when the request's method has no entry in the handler map,
`muxNode.ServeHTTP` does exactly what the muxer's `NotImplemented` handler does
on that request, once, and nothing else: no chain step and no handler of the
node runs, also after any plugins `hs` were attached through `Use` for that
very method. -/
theorem C2_missing_method_falls_back {ε : Type} (node : muxNode ε)
    (hs : List (PluginHandler ε)) (w : ResponseWriter) (r : Request)
    (hH : node.handlers r.Method = none) :
    (node.UseAll r.Method hs).ServeHTTP w r = node.NotImplemented w r := by
  have hH2 : (node.UseAll r.Method hs).handlers r.Method = none := by
    rw [muxNode.UseAll_handlers]; exact hH
  simp [muxNode.ServeHTTP, hH2, muxNode.UseAll_NotImplemented]

/-- C2 at a concrete input: POST has no handler, yet a plugin was attached for
POST; only the fallback runs. -/
theorem C2_missing_method_falls_back_witness :
    ((exampleNode.UseAll "POST" [(mark "p1").plugin]).chains "POST").isSome = true ∧
    (exampleNode.UseAll "POST" [(mark "p1").plugin]).ServeHTTP
        (ResponseWriter.conn 0) postRequest = ⟨["501"], false⟩ :=
  ⟨rfl, (C2_missing_method_falls_back exampleNode [(mark "p1").plugin]
    (ResponseWriter.conn 0) postRequest rfl).trans rfl⟩

/-- C3: with handler `H` for `m` and the plugins `p1..pn` attached for `m`,
where `p1..p(i-1)` (the forwarders `fs`) each call their continuation exactly
once and `pi` (the stopper with `body`) never calls it, dispatch of an `m`
request performs the entry events of `p1..p(i-1)` in order, then `pi`, then the
exit events of `p(i-1)..p1`.  The result mentions neither the later plugins
`later` nor `H`: none of them runs. -/
theorem C3_short_circuit {ε : Type} (node : muxNode ε) (m : String) (H : Handler ε)
    (fs : List (Forwarder ε)) (body : Handler ε) (later : List (PluginHandler ε))
    (w : ResponseWriter) (r : Request)
    (hH : node.handlers m = some H) (hfresh : node.chains m = none) (hr : r.Method = m) :
    (node.UseAll m (fs.map Forwarder.plugin ++ stopper body :: later)).ServeHTTP w r =
      (Run.ofEvents (befores fs w r)).seq
        ((body (passAll fs w r).1 (passAll fs w r).2).seq (Run.ofEvents (afters fs w r))) := by
  subst hr
  have hc := muxNode.UseAll_chains_none r.Method node
    (fs.map Forwarder.plugin ++ stopper body :: later) hfresh (by simp)
  have hH2 : (node.UseAll r.Method
      (fs.map Forwarder.plugin ++ stopper body :: later)).handlers r.Method = some H := by
    rw [muxNode.UseAll_handlers]; exact hH
  rw [muxNode.ServeHTTP_chain _ H _ w r hH2 hc (by simp), muxNode.UseAll_handlers,
    List.append_assoc, runFrom_forwarders]
  rfl

/-- C3 at a concrete input: `p1` forwards, `p2` stops, `p3` and `H` never run. -/
theorem C3_short_circuit_witness :
    (exampleNode.UseAll "GET"
        ([mark "p1"].map Forwarder.plugin ++ stopper (say "p2") :: [(mark "p3").plugin])).ServeHTTP
        (ResponseWriter.conn 0) getRequest = ⟨["p1", "p2"], false⟩ :=
  (C3_short_circuit exampleNode "GET" (say "H") [mark "p1"] (say "p2") [(mark "p3").plugin]
    (ResponseWriter.conn 0) getRequest rfl rfl rfl).trans rfl

/-- C9: starting from a node with no chain for `m`, after `k ≥ 1` calls
`Use(p1)`, ..., `Use(pk)` for `m` the chain stored for `m` has length `k + 1`
and is `p1..pk` in call order followed by the synthetic terminal step for `m`;
that step occurs exactly once in the chain (no stale one is left); and on the
first call the chain is the new empty one, so the guard `chain.length > 0` of
the tail removal is false. -/
theorem C9_synthetic_tail_invariant {ε : Type} (node : muxNode ε) (m : String)
    (ps : List (PluginFunc ε)) (hfresh : node.chains m = none) (hk : 1 ≤ ps.length) :
    ¬ ((newNodeImpl m node).chainFor.length > 0) ∧
    ∃ c : plugins ε,
      (node.UseAll m (ps.map PluginHandler.func)).chains m = some c ∧
      c.length = ps.length + 1 ∧
      c.items = ps.map PluginHandler.func ++ [PluginHandler.useClosure m] ∧
      c.items.countP PluginHandler.isUseClosure = 1 := by
  constructor
  · simp [nodeImpl.chainFor, newNodeImpl, hfresh, newPlugins, plugins.length]
  · have hne : ps.map (PluginHandler.func : PluginFunc ε → PluginHandler ε) ≠ [] := by
      cases ps with
      | nil => simp at hk
      | cons p ps => simp
    refine ⟨_, muxNode.UseAll_chains_none m node _ hfresh hne, ?_, rfl, ?_⟩
    · simp [plugins.length]
    · have h0 : ∀ qs : List (PluginFunc ε),
          (qs.map PluginHandler.func).countP PluginHandler.isUseClosure = 0 := by
        intro qs
        induction qs with
        | nil => rfl
        | cons q qs ih => simp [List.countP_cons, PluginHandler.isUseClosure, ih]
      simp [List.countP_append, h0, PluginHandler.isUseClosure]

/-- C9 at a concrete input: three `Use` calls leave `[p1, p2, p3, tail]`. -/
theorem C9_synthetic_tail_invariant_witness :
    ∃ c : plugins String,
      (exampleNode.UseAll "GET"
        ([(mark "p1").func, (mark "p2").func, (mark "p3").func].map PluginHandler.func)).chains
          "GET" = some c ∧
      c.length = 4 ∧
      c.items.countP PluginHandler.isUseClosure = 1 :=
  match (C9_synthetic_tail_invariant exampleNode "GET"
      [(mark "p1").func, (mark "p2").func, (mark "p3").func] rfl (by decide)).2 with
  | ⟨c, h1, h2, _, h4⟩ => ⟨c, h1, h2, h4⟩

/-- C10: for distinct methods `m` and `m'`, a `Use` or a `UseHandler` for `m`
leaves the handler map and the chain under every key other than `m` unchanged,
and `muxNode.ServeHTTP` on an `m'` request gives the same run as before the
call (so it runs no plugin attached for `m`). -/
theorem C10_per_method_isolation {ε : Type} (node : muxNode ε) (m m' : String)
    (p : PluginHandler ε) (h : Handler ε) (hne : m ≠ m') :
    ((node.Use m p).handlers = node.handlers ∧
      (∀ k, k ≠ m → (node.Use m p).chains k = node.chains k) ∧
      ∀ (w : ResponseWriter) (r : Request), r.Method = m' →
        (node.Use m p).ServeHTTP w r = node.ServeHTTP w r) ∧
    ((node.UseHandler m h).handlers = node.handlers ∧
      (∀ k, k ≠ m → (node.UseHandler m h).chains k = node.chains k) ∧
      ∀ (w : ResponseWriter) (r : Request), r.Method = m' →
        (node.UseHandler m h).ServeHTTP w r = node.ServeHTTP w r) := by
  have key : ∀ q : PluginHandler ε,
      (node.Use m q).handlers = node.handlers ∧
      (∀ k, k ≠ m → (node.Use m q).chains k = node.chains k) ∧
      ∀ (w : ResponseWriter) (r : Request), r.Method = m' →
        (node.Use m q).ServeHTTP w r = node.ServeHTTP w r := by
    intro q
    refine ⟨rfl, fun k hk => muxNode.Use_chains_other node m k q hk, ?_⟩
    intro w r hr
    have hk : r.Method ≠ m := by rw [hr]; exact fun e => hne e.symm
    simp only [muxNode.ServeHTTP, muxNode.Use_handlers, muxNode.Use_NotImplemented,
      muxNode.Use_chains_other node m r.Method q hk]
  exact ⟨key p, key (PluginHandler.func (useHandlerFunc h))⟩

/-- C10 at a concrete input: attaching a stopper for POST leaves GET dispatch
as it was. -/
theorem C10_per_method_isolation_witness :
    ((exampleNode.Use "GET" (mark "p1").plugin).Use "POST" (stopper (say "q"))).ServeHTTP
        (ResponseWriter.conn 0) getRequest = ⟨["p1", "H"], false⟩ :=
  ((C10_per_method_isolation (exampleNode.Use "GET" (mark "p1").plugin) "POST" "GET"
    (stopper (say "q")) (say "h") (by decide)).1.2.2
      (ResponseWriter.conn 0) getRequest rfl).trans rfl

/-- C7: the step created by `nodeImpl.UseHandler(h)` performs `h` and then
calls its continuation once on the same writer and request.  On a node with
handler `H` for `m`, with attachments `xs` made before the `UseHandler(h)` call
and `ys` after it (each a `Use` of a forwarding plugin or a `UseHandler`),
dispatch of `m` enters `xs` in order, runs `h` at the position of its call,
then enters `ys`, runs `H` once, and leaves through `ys` and `xs`. -/
theorem C7_useHandler_splices_forwarding_step {ε : Type} (node : muxNode ε) (m : String)
    (H h : Handler ε) (xs ys : List (Attachment ε)) (w : ResponseWriter) (r : Request)
    (hH : node.handlers m = some H) (hfresh : node.chains m = none) (hr : r.Method = m) :
    (∀ (next : Handler ε) (w' : ResponseWriter) (r' : Request),
      useHandlerFunc h w' r' next = (h w' r').seq (next w' r')) ∧
    (((node.attachAll m xs).UseHandler m h).attachAll m ys).ServeHTTP w r =
      (Run.ofEvents (befores (xs.map Attachment.forwarder) w r)).seq
        (((h (passAll (xs.map Attachment.forwarder) w r).1
              (passAll (xs.map Attachment.forwarder) w r).2).seq
            ((Run.ofEvents (befores (ys.map Attachment.forwarder)
                (passAll (xs.map Attachment.forwarder) w r).1
                (passAll (xs.map Attachment.forwarder) w r).2)).seq
              ((H (passAll (ys.map Attachment.forwarder)
                    (passAll (xs.map Attachment.forwarder) w r).1
                    (passAll (xs.map Attachment.forwarder) w r).2).1
                  (passAll (ys.map Attachment.forwarder)
                    (passAll (xs.map Attachment.forwarder) w r).1
                    (passAll (xs.map Attachment.forwarder) w r).2).2).seq
                (Run.ofEvents (afters (ys.map Attachment.forwarder)
                  (passAll (xs.map Attachment.forwarder) w r).1
                  (passAll (xs.map Attachment.forwarder) w r).2))))).seq
          (Run.ofEvents (afters (xs.map Attachment.forwarder) w r))) := by
  refine ⟨fun _ _ _ => rfl, ?_⟩
  subst hr
  have hall : (((node.attachAll r.Method xs).UseHandler r.Method h).attachAll r.Method ys) =
      node.UseAll r.Method ((xs.map Attachment.forwarder).map Forwarder.plugin ++
        PluginHandler.func (useHandlerFunc h) ::
          (ys.map Attachment.forwarder).map Forwarder.plugin) := by
    rw [muxNode.attachAll_eq_UseAll, muxNode.attachAll_eq_UseAll]
    simp [muxNode.UseAll, muxNode.UseHandler, muxNode.Use, nodeImpl.UseHandler]
  rw [hall]
  have hc := muxNode.UseAll_chains_none r.Method node
    ((xs.map Attachment.forwarder).map Forwarder.plugin ++
        PluginHandler.func (useHandlerFunc h) ::
          (ys.map Attachment.forwarder).map Forwarder.plugin) hfresh (by simp)
  have hH2 : (node.UseAll r.Method ((xs.map Attachment.forwarder).map Forwarder.plugin ++
        PluginHandler.func (useHandlerFunc h) ::
          (ys.map Attachment.forwarder).map Forwarder.plugin)).handlers r.Method = some H := by
    rw [muxNode.UseAll_handlers]; exact hH
  rw [muxNode.ServeHTTP_chain _ H _ w r hH2 hc (by simp), muxNode.UseAll_handlers,
    List.append_assoc, runFrom_forwarders]
  congr 2
  show (h _ _).seq (runFrom node.handlers
    ((ys.map Attachment.forwarder).map Forwarder.plugin ++ [PluginHandler.useClosure r.Method])
      _ _) = _
  rw [runFrom_forwarders, runFrom_useClosure node.handlers r.Method H hH]

/-- C7 at a concrete input: `Use(p1)`, `UseHandler(h)`, `Use(p2)` on GET. -/
theorem C7_useHandler_splices_forwarding_step_witness :
    (((exampleNode.attachAll "GET" [Attachment.use (mark "p1")]).UseHandler "GET"
        (say "h")).attachAll "GET" [Attachment.use (mark "p2")]).ServeHTTP
        (ResponseWriter.conn 0) getRequest = ⟨["p1", "h", "p2", "H"], false⟩ :=
  ((C7_useHandler_splices_forwarding_step exampleNode "GET" (say "H") (say "h")
    [Attachment.use (mark "p1")] [Attachment.use (mark "p2")]
    (ResponseWriter.conn 0) getRequest rfl rfl rfl).2).trans rfl

/-- C5: on an endpoint with handler `H`, after `n ≥ 1` plugins that each call
their continuation exactly once were attached by `endpoint.Use`, the chain
exists, and both running it directly (`ep.chain.run`) and dispatching through
`ep.ServeHTTP` perform the plugins' entry events in attachment order, then `H`
once, then the exit events. -/
theorem C5_endpoint_handler_runs_last {ε : Type} (ep : endpoint ε)
    (fs : List (Forwarder ε)) (w : ResponseWriter) (r : Request)
    (hfresh : ep.chain = none) (hn : 1 ≤ fs.length) :
    (∃ c : plugins ε, (ep.UseAll (fs.map Forwarder.plugin)).chain = some c ∧
      ∀ env : MethodMap (Handler ε), c.run env w r =
        (Run.ofEvents (befores fs w r)).seq
          ((ep.handler (passAll fs w r).1 (passAll fs w r).2).seq
            (Run.ofEvents (afters fs w r)))) ∧
    (ep.UseAll (fs.map Forwarder.plugin)).ServeHTTP w r =
      (Run.ofEvents (befores fs w r)).seq
        ((ep.handler (passAll fs w r).1 (passAll fs w r).2).seq
          (Run.ofEvents (afters fs w r))) := by
  have hne : fs.map Forwarder.plugin ≠ [] := by
    cases fs with
    | nil => simp at hn
    | cons f fs => simp
  have hc := endpoint.UseAll_chain_none ep _ hfresh hne
  refine ⟨⟨_, hc, fun env => ?_⟩, ?_⟩
  · exact runFrom_forwarders_endpoint env ep.handler fs w r
  · rw [endpoint.ServeHTTP_of_chain _ _ w r hc (by simp)]
    exact runFrom_forwarders_endpoint _ ep.handler fs w r

/-- C5 at a concrete input: the scenario of `TestEndpointServeHTTP` with two
plugins. -/
theorem C5_endpoint_handler_runs_last_witness :
    (exampleEndpoint.UseAll ([mark "p1", mark "p2"].map Forwarder.plugin)).ServeHTTP
        (ResponseWriter.conn 0) getRequest = ⟨["p1", "p2", "H"], false⟩ :=
  ((C5_endpoint_handler_runs_last exampleEndpoint [mark "p1", mark "p2"]
    (ResponseWriter.conn 0) getRequest rfl (by decide)).2).trans rfl

/-- C6: an endpoint to which no plugin was attached (its chain was never
created, or has length 0) dispatches by doing exactly what its handler does on
the request: the handler runs once, no chain step runs, and the dispatch itself
adds no panic. -/
theorem C6_endpoint_fast_path {ε : Type} (ep : endpoint ε) (w : ResponseWriter) (r : Request)
    (h0 : ep.chain = none ∨ ∃ c : plugins ε, ep.chain = some c ∧ c.length = 0) :
    ep.ServeHTTP w r = ep.handler w r := by
  rcases h0 with h | ⟨c, hc, hl⟩
  · simp [endpoint.ServeHTTP, h]
  · simp [endpoint.ServeHTTP, hc, hl]

/-- C6 at a concrete input: the first half of `TestEndpointServeHTTP`. -/
theorem C6_endpoint_fast_path_witness :
    exampleEndpoint.ServeHTTP (ResponseWriter.conn 0) getRequest = ⟨["H"], false⟩ :=
  (C6_endpoint_fast_path exampleEndpoint (ResponseWriter.conn 0) getRequest
    (Or.inl rfl)).trans rfl

/-- C4, the claim as stated fails: with one attached plugin that does not
forward, a dispatch runs the plugin and never runs `H`, so `H` is not executed
exactly once. -/
theorem C4_counterexample :
    ((exampleNode.UseAll "GET" [stopper (say "p1")]).ServeHTTP
        (ResponseWriter.conn 0) getRequest).events = ["p1"] ∧
    ((exampleNode.UseAll "GET" [stopper (say "p1")]).ServeHTTP
        (ResponseWriter.conn 0) getRequest).events.count "H" ≠ 1 := by
  constructor
  · rfl
  · decide

/-- C4, amended: for a Node method chain built by `nodeImpl.Use` and for an
Endpoint chain built by `endpoint.Use`, with any number `n ≥ 0` of attached
plugins each of which calls its continuation exactly once, one dispatch runs
the bound handler exactly once, after the entry events of every attached plugin
and before their exit events. -/
theorem C4_handler_once_when_all_forward {ε : Type} (node : muxNode ε) (ep : endpoint ε)
    (m : String) (H : Handler ε) (fs : List (Forwarder ε)) (w : ResponseWriter) (r : Request)
    (hH : node.handlers m = some H) (hfresh : node.chains m = none) (hr : r.Method = m)
    (hep : ep.chain = none) :
    (node.UseAll m (fs.map Forwarder.plugin)).ServeHTTP w r =
      (Run.ofEvents (befores fs w r)).seq
        ((H (passAll fs w r).1 (passAll fs w r).2).seq (Run.ofEvents (afters fs w r))) ∧
    (ep.UseAll (fs.map Forwarder.plugin)).ServeHTTP w r =
      (Run.ofEvents (befores fs w r)).seq
        ((ep.handler (passAll fs w r).1 (passAll fs w r).2).seq
          (Run.ofEvents (afters fs w r))) := by
  cases fs with
  | nil =>
    subst hr
    constructor
    · simp [muxNode.UseAll, muxNode.ServeHTTP, hH, hfresh, befores, passAll, afters,
        Run.ofEvents_nil, Run.skip_seq, Run.seq_skip]
    · simp [endpoint.UseAll, endpoint.ServeHTTP, hep, befores, passAll, afters,
        Run.ofEvents_nil, Run.skip_seq, Run.seq_skip]
  | cons f fs =>
    subst hr
    constructor
    · have hc := muxNode.UseAll_chains_none r.Method node
        ((f :: fs).map Forwarder.plugin) hfresh (by simp)
      have hH2 : (node.UseAll r.Method ((f :: fs).map Forwarder.plugin)).handlers r.Method =
          some H := by
        rw [muxNode.UseAll_handlers]; exact hH
      rw [muxNode.ServeHTTP_chain _ H _ w r hH2 hc (by simp), muxNode.UseAll_handlers,
        runFrom_forwarders, runFrom_useClosure node.handlers r.Method H hH]
    · have hc := endpoint.UseAll_chain_none ep ((f :: fs).map Forwarder.plugin) hep (by simp)
      rw [endpoint.ServeHTTP_of_chain _ _ w r hc (by simp)]
      exact runFrom_forwarders_endpoint _ ep.handler (f :: fs) w r

/-- C4 amended, at a concrete input: three forwarding plugins on the node and
on the endpoint; `H` occurs once, last. -/
theorem C4_handler_once_when_all_forward_witness :
    (exampleNode.UseAll "GET"
        ([mark "p1", mark "p2", mark "p3"].map Forwarder.plugin)).ServeHTTP
        (ResponseWriter.conn 0) getRequest = ⟨["p1", "p2", "p3", "H"], false⟩ ∧
    (exampleEndpoint.UseAll ([mark "p1", mark "p2", mark "p3"].map Forwarder.plugin)).ServeHTTP
        (ResponseWriter.conn 0) getRequest = ⟨["p1", "p2", "p3", "H"], false⟩ :=
  have h := C4_handler_once_when_all_forward exampleNode exampleEndpoint "GET" (say "H")
    [mark "p1", mark "p2", mark "p3"] (ResponseWriter.conn 0) getRequest rfl rfl rfl rfl
  ⟨h.1.trans rfl, h.2.trans rfl⟩

/-- C8: `compressionFunc` first adds `Vary: Accept-Encoding`.  It splits the
`Accept-Encoding` value on commas, trims each token and takes the first token
that is exactly `gzip` or exactly `deflate`.  For `gzip` (for `deflate`) it
adds `Content-Encoding: gzip` (`deflate`), takes a compressor from the pool and
calls the continuation exactly once with the `compressionWriter` around the
response writer, releasing the compressor afterwards.  With no such token it
adds no `Content-Encoding` and calls the continuation exactly once with the
original writer. -/
theorem C8_compression_encoding_selection {ε : Type} (c : Context)
    (next : Handler (Effect ε)) :
    compressionFunc c next = compressionSpec c next := by
  unfold compressionFunc compressionSpec selectedToken
  rw [compressionLoop_eq_find]
  cases hsel : ((Split (c.Request.HeaderGet "Accept-Encoding").toList ',').map TrimSpace).find?
      (fun v => decide (v = "gzip".toList) || decide (v = "deflate".toList)) with
  | none => rfl
  | some v =>
    by_cases hg : v = "gzip".toList
    · simp [hg, headerAdd, poolGet, dispose, Run.seq, Run.ofEvents]
    · show (headerAdd c.Response "Vary" "Accept-Encoding").seq (if v = "gzip".toList then _ else _)
        = if v = "gzip".toList then _ else _
      rw [if_neg hg, if_neg hg]
      simp [headerAdd, poolGet, dispose, Run.seq, Run.ofEvents]

/-- C8 at a concrete input: `Accept-Encoding: gzip` yields `Vary`, then
`Content-Encoding: gzip`, one call of the continuation with the gzip
`compressionWriter`, and one release. -/
theorem C8_compression_encoding_selection_witness :
    compressionFunc gzipContext recordWriter =
      ⟨[Effect.headerAdd (ResponseWriter.conn 0) "Vary" "Accept-Encoding",
        Effect.headerAdd (ResponseWriter.conn 0) "Content-Encoding" "gzip",
        Effect.poolGet (ResponseWriter.conn 0) CompressionType.ctGzip,
        Effect.downstream
          (ResponseWriter.compressionWriter CompressionType.ctGzip (ResponseWriter.conn 0)),
        Effect.dispose CompressionType.ctGzip], false⟩ :=
  (C8_compression_encoding_selection gzipContext recordWriter).trans rfl

end Verto
